import Mathlib

/-!
# Shallow embedding of the assign-bot participant-selection engine

This file embeds the selection engine of `src/assign_bot/selector.py`
(`RandomStrategy`, `RoundRobinStrategy`, `ItemSelector`) and the assignment
orchestrator `_select_assignees` of `src/assign_bot/bot.py`, and proves the
behavioural properties stated in the specification.

Modelling conventions:
* Python `int` is `Int`; list indices are `Nat`.
* Python `%` on a positive modulus agrees with `Int.emod`, which is Lean's `%`.
* `random.sample(population, k)` is embedded as a partial Fisher–Yates draw
  driven by an arbitrary entropy oracle `rng : Nat → Nat`; every theorem about
  the random policy is quantified over all oracles.  `random.sample` raises
  `ValueError` unless `0 ≤ k ≤ len(population)`; the embedding returns
  `Except.error .sampleError` there.
* Exceptions become `Except` values; a raising call returns the selector
  unchanged, matching Python where the raise happens before any mutation.
-/

namespace AssignBot

/-- `SelectionPolicy` from selector.py. -/
inductive SelectionPolicy : Type
  | round_robin : SelectionPolicy
  | random : SelectionPolicy
deriving DecidableEq, Repr

/-- The two distinct `ValueError` sites reachable through
`ItemSelector.select_from_available`: the roster-membership validation error
("Элемент ... не найден в коллекции"), and `random.sample`'s
"Sample larger than population or is negative". -/
inductive SelErr : Type
  | validation : SelErr
  | sampleError : SelErr
deriving DecidableEq, Repr

variable {α : Type} [DecidableEq α] [Inhabited α]

/-- Partial Fisher–Yates draw: `k` times, pick an index of the remaining pool
with the oracle and remove the element.  This is the contract-level embedding
of `random.sample`'s sampling-without-replacement (the spec allows any such
algorithm); `step` feeds the oracle a fresh position each round. -/
def sampleAux (rng : Nat → Nat) : Nat → Nat → List α → List α
  | _, 0, _ => []
  | step, k + 1, l =>
    if h : l.length = 0 then []
    else
      l.get ⟨rng step % l.length, Nat.mod_lt _ (Nat.pos_of_ne_zero h)⟩ ::
        sampleAux rng (step + 1) k (l.eraseIdx (rng step % l.length))

/-- `random.sample(population, k)`: raises `ValueError` unless
`0 ≤ k ≤ len(population)`. -/
def randomSample (rng : Nat → Nat) (population : List α) (k : Int) :
    Except SelErr (List α) :=
  if 0 ≤ k ∧ k ≤ (population.length : Int) then
    .ok (sampleAux rng 0 k.toNat population)
  else
    .error .sampleError

/-- `RandomStrategy.select`. -/
def randomSelect (rng : Nat → Nat) (available : List α) (count : Int) :
    Except SelErr (List α) :=
  if available = [] then .ok []
  else randomSample rng available (min count (available.length : Int))

/-- `full_collection[state]` for an (always in-range) cursor value. -/
def candidateAt (full : List α) (st : Int) : α :=
  full.getD st.toNat default

/-- The `while` loop of `RoundRobinStrategy.select`: the fuel is the number of
remaining attempts (`max_attempts - attempts`); each executed iteration
advances the cursor by `(state + 1) % len(full_collection)` and collects the
candidate when it lies in `available`.  Returns the selected list and the
final cursor. -/
def rrLoop (full available : List α) (actualCount : Int) :
    Nat → Int → List α → List α × Int
  | 0, st, selected => (selected, st)
  | fuel + 1, st, selected =>
    if (selected.length : Int) < actualCount then
      if candidateAt full ((st + 1) % (full.length : Int)) ∈ available then
        rrLoop full available actualCount fuel ((st + 1) % (full.length : Int))
          (selected ++ [candidateAt full ((st + 1) % (full.length : Int))])
      else
        rrLoop full available actualCount fuel ((st + 1) % (full.length : Int))
          selected
    else
      (selected, st)

/-- `RoundRobinStrategy.select`: empty `available` returns immediately without
touching the state; otherwise a `None` state is initialised to `-1`, and the
loop runs with `max_attempts = len(full_collection) * 2`.  (The strategy's
`full_collection` keyword argument is always supplied by `ItemSelector`.) -/
def rrSelect (full available : List α) (count : Int) (state : Option Int) :
    List α × Option Int :=
  if available = [] then ([], state)
  else
    let st0 : Int := state.getD (-1)
    let actualCount : Int := min count (available.length : Int)
    let r := rrLoop full available actualCount (full.length * 2) st0 []
    (r.1, some r.2)

/-- `ItemSelector`: the roster (`collection`), the active policy, and the live
strategy's internal state (`RoundRobinStrategy._state`; `RandomStrategy` is
stateless, which we render as `none`). -/
structure ItemSelector (α : Type) : Type where
  collection : List α
  policy : SelectionPolicy
  rrState : Option Int
deriving DecidableEq, Repr

/-- `ItemSelector.set_collection`: replace the collection and reset the
strategy state. -/
def set_collection (s : ItemSelector α) (items : List α) : ItemSelector α :=
  { s with collection := items, rrState := none }

/-- `ItemSelector.set_policy`: on a differing policy, install a freshly
created strategy (clean state); on the same policy, do nothing. -/
def set_policy (s : ItemSelector α) (policy : SelectionPolicy) : ItemSelector α :=
  if s.policy = policy then s
  else { s with policy := policy, rrState := none }

/-- `ItemSelector.reset_state`: reset the strategy state only. -/
def reset_state (s : ItemSelector α) : ItemSelector α :=
  { s with rrState := none }

/-- `ItemSelector.select_from_available`: empty input short-circuits; every
item of `available` must lie in the collection or a `ValueError` is raised;
then the call dispatches on the policy.  The second component is the selector
after the call (unchanged whenever an error is raised, since Python raises
before mutating). -/
def select_from_available (rng : Nat → Nat) (s : ItemSelector α)
    (available : List α) (count : Int) :
    Except SelErr (List α) × ItemSelector α :=
  if available = [] then (.ok [], s)
  else if available.any (fun item => decide (item ∉ s.collection)) then
    (.error .validation, s)
  else
    match s.policy with
    | .random =>
        match randomSelect rng available count with
        | .ok sel => (.ok sel, s)
        | .error e => (.error e, s)
    | .round_robin =>
        let r := rrSelect s.collection available count s.rrState
        (.ok r.1, { s with rrState := r.2 })

/-- `ItemSelector.select`: select from the whole collection. -/
def select (rng : Nat → Nat) (s : ItemSelector α) (count : Int) :
    Except SelErr (List α) × ItemSelector α :=
  select_from_available rng s s.collection count

/-- `UserConfig` from bot.py: the per-chat roster and its selector. -/
structure UserConfig : Type where
  usernames : List String
  selector : ItemSelector String
deriving DecidableEq, Repr

/-- `_select_assignees` from bot.py: empty `active` yields an empty list;
otherwise clamp the count, set the policy and try the selection; on a
`ValueError`, filter `active` down to roster members, return empty when none
remain, otherwise re-install the roster via `set_collection` and retry with a
re-clamped count (a second failure would propagate). -/
def selectAssignees (rng : Nat → Nat) (policy : SelectionPolicy)
    (active : List String) (state : UserConfig) (count : Int) :
    Except SelErr (List String) × UserConfig :=
  if active = [] then (.ok [], state)
  else
    let actualCount : Int := min count (active.length : Int)
    let sel1 := set_policy state.selector policy
    match select_from_available rng sel1 active actualCount with
    | (.ok r, sel2) => (.ok r, { state with selector := sel2 })
    | (.error _, sel2) =>
        let validActive := active.filter (fun u => decide (u ∈ state.usernames))
        if validActive = [] then (.ok [], { state with selector := sel2 })
        else
          let sel3 := set_collection sel2 state.usernames
          let actualCount2 : Int := min count (validActive.length : Int)
          match select_from_available rng sel3 validActive actualCount2 with
          | (.ok r, sel4) => (.ok r, { state with selector := sel4 })
          | (.error e, sel4) => (.error e, { state with selector := sel4 })

/-- The sequence of cursor values produced by `fuel` successive advances
`st ← (st + 1) % n` starting from `st`. -/
def cursorSeq (n : Nat) (st : Int) : Nat → List Int
  | 0 => []
  | fuel + 1 => (st + 1) % (n : Int) :: cursorSeq n ((st + 1) % (n : Int)) fuel

/-- The cursor value after `fuel` advances. -/
def cursorAfter (n : Nat) (st : Int) : Nat → Int
  | 0 => st
  | fuel + 1 => cursorAfter n ((st + 1) % (n : Int)) fuel

/-- The subsequence of candidates hit (i.e. lying in `available`) along
`fuel` cursor advances from `st`. -/
def hitSeq (full available : List α) (st : Int) (fuel : Nat) : List α :=
  ((cursorSeq full.length st fuel).filter
      (fun c => decide (candidateAt full c ∈ available))).map (candidateAt full)

/-- Run a sequence of single-item round-robin picks through
`select_from_available`, threading the selector state, and record each
result (an erroring pick records `[]`; none occurs in the scenarios). -/
def iterPicks (s : ItemSelector String) : List (List String) → List (List String)
  | [] => []
  | av :: rest =>
      let r := select_from_available (fun _ => 0) s av 1
      (match r.1 with | .ok l => l | .error _ => []) :: iterPicks r.2 rest

/-! ## Properties of the random-sampling embedding -/

theorem sampleAux_length (rng : Nat → Nat) :
    ∀ (k step : Nat) (l : List α), (sampleAux rng step k l).length = min k l.length := by
  intro k
  induction k with
  | zero => intro step l; simp [sampleAux]
  | succ k ih =>
      intro step l
      rw [sampleAux]
      by_cases h : l.length = 0
      · simp [h]
      · rw [dif_neg h]
        have hi : rng step % l.length < l.length :=
          Nat.mod_lt _ (Nat.pos_of_ne_zero h)
        have herase : (l.eraseIdx (rng step % l.length)).length = l.length - 1 := by
          rw [List.length_eraseIdx]
          simp [hi]
        simp only [List.length_cons, ih, herase]
        omega

theorem sampleAux_subset (rng : Nat → Nat) :
    ∀ (k step : Nat) (l : List α) (x : α), x ∈ sampleAux rng step k l → x ∈ l := by
  intro k
  induction k with
  | zero => intro step l x hx; simp [sampleAux] at hx
  | succ k ih =>
      intro step l x hx
      rw [sampleAux] at hx
      by_cases h : l.length = 0
      · simp [h] at hx
      · rw [dif_neg h] at hx
        rcases List.mem_cons.mp hx with hx | hx
        · exact hx ▸ l.get_mem _ _
        · exact (List.eraseIdx_sublist l _).subset (ih _ _ _ hx)

theorem sampleAux_nodup (rng : Nat → Nat) :
    ∀ (k step : Nat) (l : List α), l.Nodup → (sampleAux rng step k l).Nodup := by
  intro k
  induction k with
  | zero => intro step l _; simp [sampleAux]
  | succ k ih =>
      intro step l hl
      rw [sampleAux]
      by_cases h : l.length = 0
      · simp [h]
      · rw [dif_neg h]
        have hi : rng step % l.length < l.length :=
          Nat.mod_lt _ (Nat.pos_of_ne_zero h)
        refine List.nodup_cons.mpr
          ⟨?_, ih _ (l.eraseIdx _) ((List.eraseIdx_sublist l _).nodup hl)⟩
        intro hmem
        have hmem' : l.get ⟨rng step % l.length, hi⟩ ∈ l.eraseIdx (rng step % l.length) :=
          sampleAux_subset rng _ _ _ _ hmem
        obtain ⟨j, hj, hjne, hjeq⟩ := List.mem_eraseIdx_iff_getElem.mp hmem'
        exact hjne (hl.getElem_inj_iff.mp (by simpa using hjeq))

/-! ## Properties of the round-robin cursor sequence -/

theorem cursorSeq_eq_map_range (n : Nat) :
    ∀ (fuel : Nat) (st : Int), cursorSeq n st fuel =
      (List.range fuel).map (fun j : Nat => (st + 1 + (j : Int)) % (n : Int)) := by
  intro fuel
  induction fuel with
  | zero => intro st; simp [cursorSeq]
  | succ fuel ih =>
      intro st
      rw [cursorSeq, ih, List.range_succ_eq_map, List.map_cons, List.map_map]
      congr 1
      · norm_num
      · apply List.map_congr_left
        intro j _
        simp only [Function.comp_apply]
        rw [add_assoc, Int.emod_add_emod]
        congr 1
        push_cast
        ring

theorem cursorAfter_eq (n : Nat) :
    ∀ (fuel : Nat) (st : Int), cursorAfter n st fuel =
      if fuel = 0 then st else (st + fuel) % (n : Int) := by
  intro fuel
  induction fuel with
  | zero => intro st; simp [cursorAfter]
  | succ fuel ih =>
      intro st
      rw [cursorAfter, ih]
      by_cases h : fuel = 0
      · simp [h]
      · rw [if_neg h, if_neg (Nat.succ_ne_zero fuel)]
        rw [Int.emod_add_emod]
        congr 1
        push_cast
        ring

theorem cursorSeq_append (n : Nat) :
    ∀ (f g : Nat) (st : Int), cursorSeq n st (f + g) =
      cursorSeq n st f ++ cursorSeq n (cursorAfter n st f) g := by
  intro f
  induction f with
  | zero => intro g st; simp [cursorSeq, cursorAfter]
  | succ f ih =>
      intro g st
      have : f + 1 + g = (f + g) + 1 := by omega
      rw [this, cursorSeq, cursorSeq, ih, cursorAfter]
      simp

theorem mem_cursorSeq_bounds {n : Nat} (hn : 0 < n) {fuel : Nat} {st c : Int}
    (hc : c ∈ cursorSeq n st fuel) : 0 ≤ c ∧ c < (n : Int) := by
  rw [cursorSeq_eq_map_range] at hc
  obtain ⟨j, _, rfl⟩ := List.mem_map.mp hc
  have hn' : (n : Int) ≠ 0 := by exact_mod_cast hn.ne'
  exact ⟨Int.emod_nonneg _ hn', Int.emod_lt_of_pos _ (by exact_mod_cast hn)⟩

theorem cursorSeq_length (n : Nat) (fuel : Nat) (st : Int) :
    (cursorSeq n st fuel).length = fuel := by
  rw [cursorSeq_eq_map_range]; simp

theorem shift_emod_inj {n : Nat} (hn : 0 < n) {a : Int} {j1 j2 : Nat}
    (h1 : j1 < n) (h2 : j2 < n)
    (h : (a + (j1 : Int)) % (n : Int) = (a + (j2 : Int)) % (n : Int)) : j1 = j2 := by
  have h3 : ((j1 : Int) - (j2 : Int)) % (n : Int) = 0 := by
    have hd := Int.emod_eq_emod_iff_emod_sub_eq_zero.mp h
    simpa [add_sub_add_left_eq_sub] using hd
  obtain ⟨k, hk⟩ := Int.dvd_of_emod_eq_zero h3
  have hn' : (0 : Int) < (n : Int) := by exact_mod_cast hn
  have hb1 : (j1 : Int) < (n : Int) := by exact_mod_cast h1
  have hb2 : (j2 : Int) < (n : Int) := by exact_mod_cast h2
  have habs : |(n : Int) * k| < (n : Int) := by
    rw [← hk, abs_sub_lt_iff]
    constructor <;> omega
  rw [abs_mul, Nat.abs_cast] at habs
  have hk1 : |k| < 1 := by
    by_contra hcon
    push_neg at hcon
    have hge : (n : Int) * 1 ≤ (n : Int) * |k| :=
      mul_le_mul_of_nonneg_left hcon (le_of_lt hn')
    rw [mul_one] at hge
    exact absurd habs (not_lt.mpr hge)
  have hk0 : k = 0 := by
    have := abs_lt.mp hk1
    omega
  rw [hk0, mul_zero] at hk
  omega

theorem cursorSeq_nodup {n : Nat} (hn : 0 < n) {fuel : Nat} (hf : fuel ≤ n) (st : Int) :
    (cursorSeq n st fuel).Nodup := by
  rw [cursorSeq_eq_map_range]
  refine List.Nodup.map_on ?_ (List.nodup_range _)
  intro j1 hj1 j2 hj2 heq
  rw [List.mem_range] at hj1 hj2
  exact shift_emod_inj hn (by omega) (by omega) heq

theorem cursorSeq_cycle_perm {n : Nat} (hn : 0 < n) (st : Int) :
    ((cursorSeq n st n).map Int.toNat).Perm (List.range n) := by
  have hnd : ((cursorSeq n st n).map Int.toNat).Nodup := by
    refine List.Nodup.map_on ?_ (cursorSeq_nodup hn le_rfl st)
    intro c1 hc1 c2 hc2 heq
    have b1 := mem_cursorSeq_bounds hn hc1
    have b2 := mem_cursorSeq_bounds hn hc2
    omega
  have hsub : ((cursorSeq n st n).map Int.toNat) ⊆ List.range n := by
    intro x hx
    obtain ⟨c, hc, rfl⟩ := List.mem_map.mp hx
    have b := mem_cursorSeq_bounds hn hc
    rw [List.mem_range]
    omega
  refine (hnd.subperm hsub).perm_of_length_le ?_
  rw [List.length_map, cursorSeq_length, List.length_range]

/-! ## Properties of the hit sequence -/

theorem hitSeq_zero (full available : List α) (st : Int) :
    hitSeq full available st 0 = [] := by
  simp [hitSeq, cursorSeq]

theorem hitSeq_succ (full available : List α) (st : Int) (fuel : Nat) :
    hitSeq full available st (fuel + 1) =
      (if candidateAt full ((st + 1) % (full.length : Int)) ∈ available then
        [candidateAt full ((st + 1) % (full.length : Int))] else []) ++
        hitSeq full available ((st + 1) % (full.length : Int)) fuel := by
  rw [hitSeq, cursorSeq, List.filter_cons]
  by_cases h : candidateAt full ((st + 1) % (full.length : Int)) ∈ available
  · simp [h, hitSeq]
  · simp [h, hitSeq]

theorem hitSeq_append (full available : List α) (st : Int) (f g : Nat) :
    hitSeq full available st (f + g) =
      hitSeq full available st f ++
        hitSeq full available (cursorAfter full.length st f) g := by
  rw [hitSeq, cursorSeq_append, List.filter_append, List.map_append]
  rfl

theorem hitSeq_mem {full available : List α} {st : Int} {fuel : Nat} {x : α}
    (hx : x ∈ hitSeq full available st fuel) : x ∈ available := by
  rw [hitSeq] at hx
  obtain ⟨c, hc, rfl⟩ := List.mem_map.mp hx
  have := List.of_mem_filter hc
  exact of_decide_eq_true this

theorem hitSeq_cycle_nodup {full : List α} (available : List α)
    (hfull : full.Nodup) (hn : 0 < full.length) (st : Int) :
    (hitSeq full available st full.length).Nodup := by
  rw [hitSeq]
  refine List.Nodup.map_on ?_ ((cursorSeq_nodup hn le_rfl st).filter _)
  intro c1 hc1 c2 hc2 heq
  have b1 := mem_cursorSeq_bounds hn (List.mem_of_mem_filter hc1)
  have b2 := mem_cursorSeq_bounds hn (List.mem_of_mem_filter hc2)
  have h1 : c1.toNat < full.length := by omega
  have h2 : c2.toNat < full.length := by omega
  rw [candidateAt, candidateAt, List.getD_eq_getElem _ _ h1, List.getD_eq_getElem _ _ h2] at heq
  have := hfull.getElem_inj_iff.mp heq
  omega

theorem length_hitSeq_cycle {full available : List α} (hn : 0 < full.length)
    (hsub : ∀ x ∈ available, x ∈ full) (hnd : available.Nodup) (st : Int) :
    available.length ≤ (hitSeq full available st full.length).length := by
  rw [hitSeq, List.length_map, ← List.countP_eq_length_filter]
  have hmapped : (cursorSeq full.length st full.length).countP
        (fun c => decide (candidateAt full c ∈ available)) =
      ((cursorSeq full.length st full.length).map Int.toNat).countP
        (fun i => decide (full.getD i default ∈ available)) := by
    rw [List.countP_map]
    rfl
  rw [hmapped,
    (cursorSeq_cycle_perm hn st).countP_eq (fun i => decide (full.getD i default ∈ available))]
  rw [List.countP_eq_length_filter]
  have hidx : (available.map (fun a => full.indexOf a)).Nodup := by
    refine List.Nodup.map_on ?_ hnd
    intro a ha b hb heq
    have hal : full.indexOf a < full.length := List.indexOf_lt_length.mpr (hsub a ha)
    have hbl : full.indexOf b < full.length := List.indexOf_lt_length.mpr (hsub b hb)
    have h1 : full[full.indexOf a] = a := List.getElem_indexOf hal
    have h2 : full[full.indexOf b] = b := List.getElem_indexOf hbl
    rw [← h1, ← h2]
    congr 1
  have hsubf : (available.map (fun a => full.indexOf a)) ⊆
      (List.range full.length).filter (fun i => decide (full.getD i default ∈ available)) := by
    intro x hx
    obtain ⟨a, ha, rfl⟩ := List.mem_map.mp hx
    have hal : full.indexOf a < full.length := List.indexOf_lt_length.mpr (hsub a ha)
    rw [List.mem_filter, List.mem_range]
    refine ⟨hal, ?_⟩
    rw [List.getD_eq_getElem _ _ hal, List.getElem_indexOf hal]
    exact decide_eq_true ha
  calc available.length
      = (available.map (fun a => full.indexOf a)).length := (List.length_map _ _).symm
    _ ≤ _ := (hidx.subperm hsubf).length_le

/-! ## Characterising the round-robin loop -/

theorem rrLoop_fst (full available : List α) (actualCount : Int) :
    ∀ (fuel : Nat) (st : Int) (selected : List α),
      (rrLoop full available actualCount fuel st selected).1 =
        selected ++ (hitSeq full available st fuel).take
          (actualCount - selected.length).toNat := by
  intro fuel
  induction fuel with
  | zero => intro st selected; simp [rrLoop, hitSeq_zero]
  | succ fuel ih =>
      intro st selected
      rw [rrLoop]
      by_cases hlt : (selected.length : Int) < actualCount
      · rw [if_pos hlt]
        rw [hitSeq_succ]
        by_cases hp : candidateAt full ((st + 1) % (full.length : Int)) ∈ available
        · rw [if_pos hp, ih]
          have htn : (actualCount - selected.length).toNat =
              (actualCount - (selected ++
                [candidateAt full ((st + 1) % (full.length : Int))]).length).toNat + 1 := by
            rw [List.length_append]
            simp only [List.length_cons, List.length_nil]
            omega
          rw [htn]
          simp [hp, List.take_succ_cons, List.append_assoc]
        · rw [if_neg hp, ih]
          simp [hp]
      · rw [if_neg hlt]
        have : (actualCount - selected.length).toNat = 0 := by omega
        rw [this, List.take_zero, List.append_nil]

theorem rrSelect_fst {available : List α} (full : List α) (count : Int)
    (state : Option Int) (ha : available ≠ []) :
    (rrSelect full available count state).1 =
      (hitSeq full available (state.getD (-1)) (full.length * 2)).take
        (min count (available.length : Int)).toNat := by
  rw [rrSelect, if_neg ha]
  simp only
  rw [rrLoop_fst]
  simp

theorem rrSelect_length {full available : List α} {count : Int} {state : Option Int}
    (ha : available ≠ []) (hnd : available.Nodup)
    (hsub : ∀ x ∈ available, x ∈ full) :
    ((rrSelect full available count state).1).length =
      (min count (available.length : Int)).toNat := by
  obtain ⟨a, hamem⟩ := List.exists_mem_of_ne_nil _ ha
  have hn : 0 < full.length := List.length_pos.mpr (List.ne_nil_of_mem (hsub a hamem))
  rw [rrSelect_fst full count state ha, List.length_take]
  have hsplit : full.length * 2 = full.length + full.length := by omega
  rw [hsplit, hitSeq_append, List.length_append]
  have hcyc := length_hitSeq_cycle hn hsub hnd (state.getD (-1))
  have hmin : (min count (available.length : Int)).toNat ≤ available.length := by
    have := min_le_right count (available.length : Int)
    omega
  omega

theorem rrSelect_take_cycle {full available : List α} {count : Int} {state : Option Int}
    (ha : available ≠ []) (hnd : available.Nodup)
    (hsub : ∀ x ∈ available, x ∈ full) :
    (rrSelect full available count state).1 =
      (hitSeq full available (state.getD (-1)) full.length).take
        (min count (available.length : Int)).toNat := by
  obtain ⟨a, hamem⟩ := List.exists_mem_of_ne_nil _ ha
  have hn : 0 < full.length := List.length_pos.mpr (List.ne_nil_of_mem (hsub a hamem))
  rw [rrSelect_fst full count state ha]
  have hsplit : full.length * 2 = full.length + full.length := by omega
  rw [hsplit, hitSeq_append]
  apply List.take_append_of_le_length
  have hcyc := length_hitSeq_cycle hn hsub hnd (state.getD (-1))
  have hmin : (min count (available.length : Int)).toNat ≤ available.length := by
    have := min_le_right count (available.length : Int)
    omega
  omega

theorem rrSelect_subset {full available : List α} {count : Int} {state : Option Int}
    {x : α} (hx : x ∈ (rrSelect full available count state).1) : x ∈ available := by
  by_cases ha : available = []
  · rw [rrSelect, if_pos ha] at hx
    simp at hx
  · rw [rrSelect_fst full count state ha] at hx
    exact hitSeq_mem (List.take_subset _ _ hx)

theorem rrSelect_nodup {full available : List α} {count : Int} {state : Option Int}
    (hfull : full.Nodup) (hnd : available.Nodup)
    (hsub : ∀ x ∈ available, x ∈ full) :
    ((rrSelect full available count state).1).Nodup := by
  by_cases ha : available = []
  · rw [rrSelect, if_pos ha]
    exact List.nodup_nil
  · obtain ⟨a, hamem⟩ := List.exists_mem_of_ne_nil _ ha
    have hn : 0 < full.length := List.length_pos.mpr (List.ne_nil_of_mem (hsub a hamem))
    rw [rrSelect_take_cycle ha hnd hsub]
    exact (List.take_sublist _ _).nodup (hitSeq_cycle_nodup available hfull hn _)

/-! ## The fresh-cursor cycle visits the collection in order -/

theorem filter_index_map (pr : α → Bool) :
    ∀ l : List α, ((List.range l.length).filter (fun j => pr (l.getD j default))).map
      (fun j => l.getD j default) = l.filter pr := by
  intro l
  induction l with
  | nil => simp
  | cons a t ih =>
      rw [List.length_cons, List.range_succ_eq_map, List.filter_cons]
      have h0 : ((a :: t).getD 0 default) = a := rfl
      have hsucc : ∀ j : Nat, ((a :: t).getD (Nat.succ j) default) = t.getD j default :=
        fun j => rfl
      rw [List.filter_map]
      by_cases hpa : pr a
      · rw [if_pos (by simpa [h0] using hpa)]
        rw [List.map_cons, List.map_map, List.filter_cons, if_pos hpa, h0]
        congr 1
      · rw [if_neg (by simpa [h0] using hpa)]
        rw [List.map_map, List.filter_cons, if_neg hpa]
        exact ih

theorem cursorSeq_fresh {n : Nat} (hn : 0 < n) :
    cursorSeq n (-1) n = (List.range n).map (fun j : Nat => (j : Int)) := by
  rw [cursorSeq_eq_map_range]
  apply List.map_congr_left
  intro j hj
  rw [List.mem_range] at hj
  have h1 : (-1 : Int) + 1 + (j : Int) = (j : Int) := by ring
  rw [h1]
  exact Int.emod_eq_of_lt (by exact_mod_cast Nat.zero_le j) (by exact_mod_cast hj)

theorem hitSeq_fresh {full : List α} (available : List α) (hn : 0 < full.length) :
    hitSeq full available (-1) full.length =
      full.filter (fun x => decide (x ∈ available)) := by
  rw [hitSeq, cursorSeq_fresh hn, List.filter_map, List.map_map]
  have hcand : ∀ j : Nat, candidateAt full (j : Int) = full.getD j default := by
    intro j
    rw [candidateAt]
    congr 1
  have h1 : ((fun c => decide (candidateAt full c ∈ available)) ∘ (fun j : Nat => (j : Int)))
      = (fun j : Nat => decide (full.getD j default ∈ available)) := by
    funext j
    simp [Function.comp, hcand]
  have h2 : ((candidateAt full) ∘ (fun j : Nat => (j : Int)))
      = (fun j : Nat => full.getD j default) := by
    funext j
    simp [Function.comp, hcand]
  rw [h1, h2]
  exact filter_index_map (fun x => decide (x ∈ available)) full

/-! ## Bridge lemmas for `select_from_available` -/

theorem any_not_mem_false {available col : List α} (h : ∀ x ∈ available, x ∈ col) :
    (available.any (fun item => decide (item ∉ col))) = false := by
  cases hc : available.any (fun item => decide (item ∉ col)) with
  | false => rfl
  | true =>
      obtain ⟨x, hx, hdec⟩ := List.any_eq_true.mp hc
      exact absurd (h x hx) (of_decide_eq_true hdec)

theorem any_not_mem_true {available col : List α} (h : ∃ x ∈ available, x ∉ col) :
    (available.any (fun item => decide (item ∉ col))) = true := by
  obtain ⟨x, hx, hnot⟩ := h
  exact List.any_eq_true.mpr ⟨x, hx, decide_eq_true hnot⟩

theorem select_dispatch (rng : Nat → Nat) (s : ItemSelector α) {available : List α}
    (count : Int) (ha : available ≠ []) (hsub : ∀ x ∈ available, x ∈ s.collection) :
    select_from_available rng s available count =
      match s.policy with
      | .random =>
          match randomSelect rng available count with
          | .ok sel => (.ok sel, s)
          | .error e => (.error e, s)
      | .round_robin =>
          (.ok (rrSelect s.collection available count s.rrState).1,
            { s with rrState := (rrSelect s.collection available count s.rrState).2 }) := by
  rw [select_from_available, if_neg ha, any_not_mem_false hsub]
  rfl

theorem select_validation_fails (rng : Nat → Nat) (s : ItemSelector α) {available : List α}
    (count : Int) (ha : available ≠ []) (hbad : ∃ x ∈ available, x ∉ s.collection) :
    select_from_available rng s available count = (.error .validation, s) := by
  rw [select_from_available, if_neg ha, any_not_mem_true hbad]
  rfl

theorem randomSelect_ok (rng : Nat → Nat) {available : List α} {count : Int}
    (ha : available ≠ []) (hc : 1 ≤ count) :
    randomSelect rng available count =
      .ok (sampleAux rng 0 (min count (available.length : Int)).toNat available) := by
  rw [randomSelect, if_neg ha, randomSample, if_pos]
  constructor
  · exact le_min (by omega) (by exact_mod_cast Nat.zero_le available.length)
  · exact min_le_right _ _

theorem select_no_validation_error (rng : Nat → Nat) (s : ItemSelector α)
    {available : List α} (count : Int) (hsub : ∀ x ∈ available, x ∈ s.collection) :
    (select_from_available rng s available count).1 ≠ .error .validation := by
  by_cases ha : available = []
  · rw [select_from_available, if_pos ha]
    simp
  · rw [select_dispatch rng s count ha hsub]
    cases s.policy with
    | round_robin => simp
    | random =>
        cases hr : randomSelect rng available count with
        | ok sel => simp
        | error e =>
            rw [randomSelect, if_neg ha, randomSample] at hr
            by_cases hcond : 0 ≤ min count (available.length : Int) ∧
                min count (available.length : Int) ≤ ((available.length : Nat) : Int)
            · rw [if_pos hcond] at hr
              exact absurd hr (by simp)
            · rw [if_neg hcond] at hr
              have he : e = SelErr.sampleError := by
                injection hr with h
                exact h.symm
              subst he
              simp

theorem set_policy_collection (s : ItemSelector α) (p : SelectionPolicy) :
    (set_policy s p).collection = s.collection := by
  rw [set_policy]
  split <;> rfl

/-! ## Claim theorems -/

/-- C1: under ROUND_ROBIN the cursor advances over the full roster order,
skipping roster entries absent from `available`, with wrap-around, and the
cursor persists across calls: with roster `[a,b,c]` and `available` equal to
the roster, six single-item picks from the uninitialised state yield exactly
`[a,b,c,a,b,c]`; with roster `[a,b,c,d]`, picking from `[a,b,c,d]` yields
`a`, then from `[a,c,d]` (b excluded) yields `c`, then from the restored
`[a,b,c,d]` yields `d`. -/
theorem round_robin_cursor_scenarios :
    iterPicks ⟨["a", "b", "c"], .round_robin, none⟩
        [["a", "b", "c"], ["a", "b", "c"], ["a", "b", "c"],
          ["a", "b", "c"], ["a", "b", "c"], ["a", "b", "c"]] =
      [["a"], ["b"], ["c"], ["a"], ["b"], ["c"]] ∧
    iterPicks ⟨["a", "b", "c", "d"], .round_robin, none⟩
        [["a", "b", "c", "d"], ["a", "c", "d"], ["a", "b", "c", "d"]] =
      [["a"], ["c"], ["d"]] :=
  ⟨rfl, rfl⟩

/-- C2: for `count ≥ 1` and a non-empty duplicate-free `available` that is a
subset of the roster, `select_from_available` succeeds and returns exactly
`min count |available|` items, under both policies (the round-robin
`2 × |roster|` attempt cap never truncates the result). -/
theorem select_length_eq_min (rng : Nat → Nat) (s : ItemSelector α)
    (available : List α) (count : Int) (ha : available ≠ [])
    (hnd : available.Nodup) (hsub : ∀ x ∈ available, x ∈ s.collection)
    (hc : 1 ≤ count) :
    ∃ r, (select_from_available rng s available count).1 = .ok r ∧
      (r.length : Int) = min count (available.length : Int) := by
  have hminnn : 0 ≤ min count (available.length : Int) :=
    le_min (by omega) (by exact_mod_cast Nat.zero_le available.length)
  have hminle : min count (available.length : Int) ≤ (available.length : Int) :=
    min_le_right _ _
  rw [select_dispatch rng s count ha hsub]
  cases s.policy with
  | random =>
      rw [randomSelect_ok rng ha hc]
      refine ⟨_, rfl, ?_⟩
      rw [sampleAux_length]
      have : (min count (available.length : Int)).toNat ≤ available.length := by omega
      rw [min_eq_left this]
      omega
  | round_robin =>
      refine ⟨_, rfl, ?_⟩
      rw [rrSelect_length ha hnd hsub]
      omega

/-- C2 witness. -/
theorem select_length_eq_min_witness :
    ∃ r, (select_from_available (fun _ => 0)
        (⟨["a", "b"], .round_robin, none⟩ : ItemSelector String) ["a"] 1).1 = .ok r ∧
      (r.length : Int) = min 1 ((["a"] : List String).length : Int) :=
  select_length_eq_min (fun _ => 0) ⟨["a", "b"], .round_robin, none⟩ ["a"] 1
    (by decide) (by decide) (by decide) (by decide)

/-- C3: for `count ≥ 1`, `select_from_available` raises an error exactly when
`available` is non-empty and contains an item outside the roster; the error
is always the ValidationError, and a failing call leaves the selector
unchanged. -/
theorem validation_error_iff (rng : Nat → Nat) (s : ItemSelector α)
    (available : List α) (count : Int) (hc : 1 ≤ count) :
    ((∃ e, (select_from_available rng s available count).1 = .error e) ↔
      (available ≠ [] ∧ ∃ x ∈ available, x ∉ s.collection)) ∧
    (∀ e, (select_from_available rng s available count).1 = .error e →
      e = .validation ∧ (select_from_available rng s available count).2 = s) := by
  by_cases ha : available = []
  · rw [select_from_available, if_pos ha]
    constructor
    · constructor
      · rintro ⟨e, he⟩
        exact absurd he (by simp)
      · rintro ⟨hne, -⟩
        exact absurd ha hne
    · intro e he
      exact absurd he (by simp)
  · by_cases hbad : ∃ x ∈ available, x ∉ s.collection
    · rw [select_validation_fails rng s count ha hbad]
      exact ⟨⟨fun _ => ⟨ha, hbad⟩, fun _ => ⟨.validation, rfl⟩⟩,
        fun e he => ⟨by injection he with h; exact h.symm, rfl⟩⟩
    · push_neg at hbad
      have hsub : ∀ x ∈ available, x ∈ s.collection := hbad
      rw [select_dispatch rng s count ha hsub]
      cases s.policy with
      | random =>
          rw [randomSelect_ok rng ha hc]
          constructor
          · constructor
            · rintro ⟨e, he⟩
              exact absurd he (by simp)
            · rintro ⟨-, x, hx, hnot⟩
              exact absurd (hsub x hx) hnot
          · intro e he
            exact absurd he (by simp)
      | round_robin =>
          constructor
          · constructor
            · rintro ⟨e, he⟩
              exact absurd he (by simp)
            · rintro ⟨-, x, hx, hnot⟩
              exact absurd (hsub x hx) hnot
          · intro e he
            exact absurd he (by simp)

/-- C3 witness. -/
theorem validation_error_iff_witness :
    (((∃ e, (select_from_available (fun _ => 0)
          (⟨["a"], .random, none⟩ : ItemSelector String) ["b"] 1).1 = .error e) ↔
        ((["b"] : List String) ≠ [] ∧ ∃ x ∈ (["b"] : List String), x ∉ (["a"] : List String))) ∧
      (∀ e, (select_from_available (fun _ => 0)
          (⟨["a"], .random, none⟩ : ItemSelector String) ["b"] 1).1 = .error e →
        e = .validation ∧ (select_from_available (fun _ => 0)
          (⟨["a"], .random, none⟩ : ItemSelector String) ["b"] 1).2 =
            ⟨["a"], .random, none⟩)) :=
  validation_error_iff (fun _ => 0) ⟨["a"], .random, none⟩ ["b"] 1 (by decide)

/-- C4: with a duplicate-free roster and a duplicate-free `available` (the
data model's Roster and Active Subset), every successfully returned list is
duplicate-free and drawn from `available`, under both policies; and under
RANDOM with valid non-empty `available` and `1 ≤ count ≤ |available|` the
result has exactly `count` (distinct) items. -/
theorem select_result_nodup (rng : Nat → Nat) (s : ItemSelector α)
    (available : List α) (count : Int) (hcol : s.collection.Nodup)
    (hnd : available.Nodup) :
    (∀ r, (select_from_available rng s available count).1 = .ok r →
      r.Nodup ∧ ∀ x ∈ r, x ∈ available) ∧
    (s.policy = .random → available ≠ [] →
      (∀ x ∈ available, x ∈ s.collection) → 1 ≤ count →
      count ≤ (available.length : Int) →
      ∃ r, (select_from_available rng s available count).1 = .ok r ∧
        (r.length : Int) = count) := by
  constructor
  · intro r hr
    by_cases ha : available = []
    · rw [select_from_available, if_pos ha] at hr
      have : r = [] := by
        injection hr with h
        exact h.symm
      subst this
      exact ⟨List.nodup_nil, by simp⟩
    · by_cases hbad : ∃ x ∈ available, x ∉ s.collection
      · rw [select_validation_fails rng s count ha hbad] at hr
        exact absurd hr (by simp)
      · push_neg at hbad
        rw [select_dispatch rng s count ha hbad] at hr
        cases hp : s.policy with
        | random =>
            rw [hp] at hr
            cases hrs : randomSelect rng available count with
            | error e => rw [hrs] at hr; exact absurd hr (by simp)
            | ok sel =>
                rw [hrs] at hr
                have hrsel : r = sel := by
                  injection hr with h
                  exact h.symm
                subst hrsel
                rw [randomSelect, if_neg ha, randomSample] at hrs
                by_cases hcond : 0 ≤ min count (available.length : Int) ∧
                    min count (available.length : Int) ≤ ((available.length : Nat) : Int)
                · rw [if_pos hcond] at hrs
                  have hsel : r = sampleAux rng 0
                      (min count (available.length : Int)).toNat available := by
                    injection hrs with h
                    exact h.symm
                  subst hsel
                  exact ⟨sampleAux_nodup rng _ _ _ hnd,
                    fun x hx => sampleAux_subset rng _ _ _ _ hx⟩
                · rw [if_neg hcond] at hrs
                  exact absurd hrs (by simp)
        | round_robin =>
            rw [hp] at hr
            have hrsel : r = (rrSelect s.collection available count s.rrState).1 := by
              injection hr with h
              exact h.symm
            subst hrsel
            exact ⟨rrSelect_nodup hcol hnd hbad, fun x hx => rrSelect_subset hx⟩
  · intro hp ha hsub hc1 hcle
    rw [select_dispatch rng s count ha hsub, hp, randomSelect_ok rng ha hc1]
    refine ⟨_, rfl, ?_⟩
    rw [sampleAux_length]
    have hmineq : min count (available.length : Int) = count := min_eq_left hcle
    rw [hmineq]
    have : count.toNat ≤ available.length := by omega
    rw [min_eq_left this]
    omega

/-- C4 witness. -/
theorem select_result_nodup_witness :
    ((∀ r, (select_from_available (fun _ => 0)
        (⟨["a", "b"], .random, none⟩ : ItemSelector String) ["a", "b"] 2).1 = .ok r →
      r.Nodup ∧ ∀ x ∈ r, x ∈ (["a", "b"] : List String)) ∧
    ((⟨["a", "b"], .random, none⟩ : ItemSelector String).policy = .random →
      (["a", "b"] : List String) ≠ [] →
      (∀ x ∈ (["a", "b"] : List String),
        x ∈ (⟨["a", "b"], .random, none⟩ : ItemSelector String).collection) →
      1 ≤ (2 : Int) → (2 : Int) ≤ ((["a", "b"] : List String).length : Int) →
      ∃ r, (select_from_available (fun _ => 0)
          (⟨["a", "b"], .random, none⟩ : ItemSelector String) ["a", "b"] 2).1 = .ok r ∧
        (r.length : Int) = 2)) :=
  select_result_nodup (fun _ => 0) ⟨["a", "b"], .random, none⟩ ["a", "b"] 2
    (by decide) (by decide)

/-- C6 counterexample: under RANDOM with non-empty `available` and a negative
count, `select_from_available` does raise (the `random.sample` ValueError),
contradicting "returns an empty result and does not raise an error for every
count ≤ 0". -/
theorem negative_count_random_raises :
    (select_from_available (fun _ => 0)
        (⟨["a"], .random, none⟩ : ItemSelector String) ["a"] (-1)).1 =
      .error .sampleError :=
  rfl

/-- C6 amended: for roster-valid `available`, a non-positive count yields an
empty result without error under ROUND_ROBIN, and likewise under RANDOM when
`count = 0` or `available = []`; only RANDOM with non-empty `available` and
strictly negative count raises. -/
theorem nonpositive_count_empty (rng : Nat → Nat) (s : ItemSelector α)
    (available : List α) (count : Int)
    (hsub : ∀ x ∈ available, x ∈ s.collection) (hc : count ≤ 0) :
    (available = [] → select_from_available rng s available count = (.ok [], s)) ∧
    (s.policy = .round_robin →
      (select_from_available rng s available count).1 = .ok []) ∧
    (count = 0 → (select_from_available rng s available count).1 = .ok []) := by
  refine ⟨?_, ?_, ?_⟩
  · intro ha
    rw [select_from_available, if_pos ha]
  · intro hp
    by_cases ha : available = []
    · rw [select_from_available, if_pos ha]
    · rw [select_dispatch rng s count ha hsub, hp]
      simp only
      rw [rrSelect_fst s.collection count s.rrState ha]
      have : (min count (available.length : Int)).toNat = 0 := by
        have := min_le_left count (available.length : Int)
        omega
      rw [this, List.take_zero]
  · intro hc0
    subst hc0
    by_cases ha : available = []
    · rw [select_from_available, if_pos ha]
    · rw [select_dispatch rng s 0 ha hsub]
      cases s.policy with
      | random =>
          rw [randomSelect, if_neg ha, randomSample, if_pos]
          · have : (min (0 : Int) (available.length : Int)).toNat = 0 := by
              have := min_le_left (0 : Int) (available.length : Int)
              omega
            rw [this]
            rfl
          · exact ⟨le_min le_rfl (by exact_mod_cast Nat.zero_le available.length),
              min_le_right _ _⟩
      | round_robin =>
          simp only
          rw [rrSelect_fst s.collection 0 s.rrState ha]
          have : (min (0 : Int) (available.length : Int)).toNat = 0 := by
            have := min_le_left (0 : Int) (available.length : Int)
            omega
          rw [this, List.take_zero]

/-- C6 amended witness. -/
theorem nonpositive_count_empty_witness :
    (((["a"] : List String) = [] → select_from_available (fun _ => 0)
        (⟨["a"], .round_robin, none⟩ : ItemSelector String) ["a"] (-3) =
          (.ok [], ⟨["a"], .round_robin, none⟩)) ∧
      ((⟨["a"], .round_robin, none⟩ : ItemSelector String).policy = .round_robin →
        (select_from_available (fun _ => 0)
          (⟨["a"], .round_robin, none⟩ : ItemSelector String) ["a"] (-3)).1 = .ok []) ∧
      ((-3 : Int) = 0 → (select_from_available (fun _ => 0)
          (⟨["a"], .round_robin, none⟩ : ItemSelector String) ["a"] (-3)).1 = .ok [])) :=
  nonpositive_count_empty (fun _ => 0) ⟨["a"], .round_robin, none⟩ ["a"] (-3)
    (by decide) (by decide)

/-- C7: `set_policy` with a different policy installs a fresh strategy (the
cursor is cleared), while `set_policy` with the current policy is a no-op on
the whole selector; in particular switching ROUND_ROBIN → RANDOM →
ROUND_ROBIN makes the next pick behave exactly like a pick from a cleared
cursor. -/
theorem set_policy_reset (rng : Nat → Nat) (s : ItemSelector α)
    (p : SelectionPolicy) (available : List α) (count : Int) :
    (set_policy s p = if s.policy = p then s else ⟨s.collection, p, none⟩) ∧
    (s.policy = .round_robin →
      select_from_available rng (set_policy (set_policy s .random) .round_robin)
          available count =
        select_from_available rng (reset_state s) available count) := by
  constructor
  · rfl
  · intro hrr
    have h1 : set_policy s .random = ⟨s.collection, .random, none⟩ := by
      rw [set_policy, if_neg (by rw [hrr]; exact fun h => nomatch h)]
    have h2 : set_policy (⟨s.collection, .random, none⟩ : ItemSelector α) .round_robin =
        ⟨s.collection, .round_robin, none⟩ := by
      rw [set_policy, if_neg (by exact fun h => nomatch h)]
    have h3 : reset_state s = ⟨s.collection, .round_robin, none⟩ := by
      rw [reset_state]
      cases s
      simp_all
    rw [h1, h2, h3]

/-- C7 witness. -/
theorem set_policy_reset_witness :
    ((set_policy (⟨["a", "b"], .round_robin, some 1⟩ : ItemSelector String) .random =
        if (⟨["a", "b"], .round_robin, some 1⟩ : ItemSelector String).policy = .random then
          (⟨["a", "b"], .round_robin, some 1⟩ : ItemSelector String)
        else ⟨["a", "b"], .random, none⟩) ∧
      ((⟨["a", "b"], .round_robin, some 1⟩ : ItemSelector String).policy = .round_robin →
        select_from_available (fun _ => 0)
            (set_policy (set_policy (⟨["a", "b"], .round_robin, some 1⟩ : ItemSelector String)
              .random) .round_robin) ["a", "b"] 1 =
          select_from_available (fun _ => 0)
            (reset_state (⟨["a", "b"], .round_robin, some 1⟩ : ItemSelector String))
            ["a", "b"] 1)) :=
  set_policy_reset (fun _ => 0) ⟨["a", "b"], .round_robin, some 1⟩ .random ["a", "b"] 1

/-- C8: `set_collection` replaces the roster with the given sequence (any
sequence, including the empty one) and unconditionally clears the strategy
state, leaving the policy untouched. -/
theorem set_collection_resets (s : ItemSelector α) (items : List α) :
    set_collection s items = ⟨items, s.policy, none⟩ :=
  rfl

/-- C9: `reset_state` clears only the cursor, leaving roster and policy
unchanged, and a round-robin pick right after `reset_state` is the first pick
of a fresh cycle: it returns the first `min count |available|` roster entries
(in roster order from the start) that are present in `available`. -/
theorem reset_state_fresh_cycle (rng : Nat → Nat) (s : ItemSelector α)
    (available : List α) (count : Int) :
    (reset_state s = ⟨s.collection, s.policy, none⟩) ∧
    (s.policy = .round_robin → available ≠ [] → available.Nodup →
      (∀ x ∈ available, x ∈ s.collection) →
      (select_from_available rng (reset_state s) available count).1 =
        .ok ((s.collection.filter (fun x => decide (x ∈ available))).take
          (min count (available.length : Int)).toNat)) := by
  constructor
  · rfl
  · intro hp ha hnd hsub
    obtain ⟨a, hamem⟩ := List.exists_mem_of_ne_nil _ ha
    have hn : 0 < s.collection.length :=
      List.length_pos.mpr (List.ne_nil_of_mem (hsub a hamem))
    have hsub' : ∀ x ∈ available, x ∈ (reset_state s).collection := hsub
    rw [select_dispatch rng (reset_state s) count ha hsub']
    have hpol : (reset_state s).policy = .round_robin := hp
    rw [hpol]
    simp only
    have hstate : (reset_state s).rrState = none := rfl
    have hcoll : (reset_state s).collection = s.collection := rfl
    rw [hstate, hcoll]
    rw [rrSelect_take_cycle ha hnd hsub]
    have hgd : (Option.getD (none : Option Int) (-1)) = (-1 : Int) := rfl
    rw [hgd, hitSeq_fresh available hn]

/-- C9 witness. -/
theorem reset_state_fresh_cycle_witness :
    ((reset_state (⟨["a", "b", "c"], .round_robin, some 2⟩ : ItemSelector String) =
        ⟨["a", "b", "c"], .round_robin, none⟩) ∧
      ((⟨["a", "b", "c"], .round_robin, some 2⟩ : ItemSelector String).policy = .round_robin →
        (["a", "c"] : List String) ≠ [] → (["a", "c"] : List String).Nodup →
        (∀ x ∈ (["a", "c"] : List String),
          x ∈ (⟨["a", "b", "c"], .round_robin, some 2⟩ : ItemSelector String).collection) →
        (select_from_available (fun _ => 0)
            (reset_state (⟨["a", "b", "c"], .round_robin, some 2⟩ : ItemSelector String))
            ["a", "c"] 1).1 =
          .ok ((["a", "b", "c"].filter (fun x => decide (x ∈ (["a", "c"] : List String)))).take
            (min 1 (((["a", "c"] : List String).length : Nat) : Int)).toNat))) :=
  reset_state_fresh_cycle (fun _ => 0) ⟨["a", "b", "c"], .round_robin, some 2⟩ ["a", "c"] 1

/-- C10: whenever `select_from_available` dispatches to the round-robin
strategy (non-empty `available` that passed roster validation), the roster is
non-empty, so the cursor advance `(state + 1) % len(full_collection)` never
divides by zero and the call returns normally. -/
theorem round_robin_dispatch_total (rng : Nat → Nat) (s : ItemSelector α)
    (available : List α) (count : Int) (ha : available ≠ [])
    (hsub : ∀ x ∈ available, x ∈ s.collection) :
    0 < s.collection.length ∧
    (s.policy = .round_robin →
      (select_from_available rng s available count).1 =
        .ok (rrSelect s.collection available count s.rrState).1) := by
  obtain ⟨a, hamem⟩ := List.exists_mem_of_ne_nil _ ha
  refine ⟨List.length_pos.mpr (List.ne_nil_of_mem (hsub a hamem)), ?_⟩
  intro hp
  rw [select_dispatch rng s count ha hsub, hp]

/-- C10 witness. -/
theorem round_robin_dispatch_total_witness :
    0 < (⟨["a", "b"], .round_robin, none⟩ : ItemSelector String).collection.length ∧
    ((⟨["a", "b"], .round_robin, none⟩ : ItemSelector String).policy = .round_robin →
      (select_from_available (fun _ => 0)
          (⟨["a", "b"], .round_robin, none⟩ : ItemSelector String) ["b"] 1).1 =
        .ok (rrSelect (⟨["a", "b"], .round_robin, none⟩ : ItemSelector String).collection
          ["b"] 1 (⟨["a", "b"], .round_robin, none⟩ : ItemSelector String).rrState).1) :=
  round_robin_dispatch_total (fun _ => 0) ⟨["a", "b"], .round_robin, none⟩ ["b"] 1
    (by decide) (by decide)

/-- C5: the orchestrator returns `[]` for empty `active`; a validation
failure (identifiers outside the roster) is always caught: the orchestrator
filters `active` to the roster members, returns `[]` when none remain, and
otherwise re-installs the roster via `set_collection` and retries against the
filtered subset with a re-clamped count; the validation error never reaches
the caller. -/
theorem selectAssignees_recovery (rng : Nat → Nat) (policy : SelectionPolicy)
    (active : List String) (st : UserConfig) (count : Int) :
    (active = [] → selectAssignees rng policy active st count = (.ok [], st)) ∧
    ((selectAssignees rng policy active st count).1 ≠ .error .validation) ∧
    (active ≠ [] → (∃ u ∈ active, u ∉ st.selector.collection) →
      (active.filter (fun u => decide (u ∈ st.usernames)) = [] →
        (selectAssignees rng policy active st count).1 = .ok []) ∧
      (active.filter (fun u => decide (u ∈ st.usernames)) ≠ [] →
        (selectAssignees rng policy active st count).1 =
          (select_from_available rng
            (set_collection (set_policy st.selector policy) st.usernames)
            (active.filter (fun u => decide (u ∈ st.usernames)))
            (min count
              ((active.filter (fun u => decide (u ∈ st.usernames))).length : Int))).1)) := by
  have hsubretry : ∀ sel2 : ItemSelector String,
      ∀ x ∈ active.filter (fun u => decide (u ∈ st.usernames)),
        x ∈ (set_collection sel2 st.usernames).collection := by
    intro sel2 x hx
    exact of_decide_eq_true (List.mem_filter.mp hx).2
  refine ⟨?_, ?_, ?_⟩
  · intro ha
    rw [selectAssignees, if_pos ha]
  · by_cases ha : active = []
    · rw [selectAssignees, if_pos ha]
      simp
    · simp only [selectAssignees, if_neg ha]
      rcases hcall : select_from_available rng (set_policy st.selector policy) active
          (min count (active.length : Int)) with ⟨res1, sel2⟩
      cases res1 with
      | ok r => simp
      | error e =>
          simp only
          by_cases hv : active.filter (fun u => decide (u ∈ st.usernames)) = []
          · rw [if_pos hv]
            simp
          · rw [if_neg hv]
            have hnv := select_no_validation_error rng (set_collection sel2 st.usernames)
              (min count ((active.filter (fun u => decide (u ∈ st.usernames))).length : Int))
              (hsubretry sel2)
            rcases hretry : select_from_available rng (set_collection sel2 st.usernames)
                (active.filter (fun u => decide (u ∈ st.usernames)))
                (min count ((active.filter (fun u => decide (u ∈ st.usernames))).length : Int))
              with ⟨res2, sel4⟩
            rw [hretry] at hnv
            cases res2 with
            | ok r => simp
            | error e2 => simpa using hnv
  · intro ha hbad
    have hbad1 : ∃ u ∈ active, u ∉ (set_policy st.selector policy).collection := by
      simpa [set_policy_collection] using hbad
    have hfail := select_validation_fails rng (set_policy st.selector policy)
      (min count (active.length : Int)) ha hbad1
    constructor
    · intro hv
      simp only [selectAssignees, if_neg ha]
      rw [hfail]
      simp only
      rw [if_pos hv]
    · intro hv
      simp only [selectAssignees, if_neg ha]
      rw [hfail]
      simp only
      rw [if_neg hv]
      rcases hretry : select_from_available rng
          (set_collection (set_policy st.selector policy) st.usernames)
          (active.filter (fun u => decide (u ∈ st.usernames)))
          (min count ((active.filter (fun u => decide (u ∈ st.usernames))).length : Int))
        with ⟨res2, sel4⟩
      cases res2 <;> simp

/-- C5 witness. -/
theorem selectAssignees_recovery_witness :
    (((["x", "b"] : List String) = [] → selectAssignees (fun _ => 0) .round_robin
        ["x", "b"] ⟨["a", "b"], ⟨["a", "b"], .random, none⟩⟩ 2 =
          (.ok [], ⟨["a", "b"], ⟨["a", "b"], .random, none⟩⟩)) ∧
      ((selectAssignees (fun _ => 0) .round_robin ["x", "b"]
          ⟨["a", "b"], ⟨["a", "b"], .random, none⟩⟩ 2).1 ≠ .error .validation) ∧
      ((["x", "b"] : List String) ≠ [] →
        (∃ u ∈ (["x", "b"] : List String),
          u ∉ (⟨["a", "b"], ⟨["a", "b"], .random, none⟩⟩ : UserConfig).selector.collection) →
        ((["x", "b"] : List String).filter
            (fun u => decide (u ∈ (⟨["a", "b"], ⟨["a", "b"], .random, none⟩⟩ :
              UserConfig).usernames)) = [] →
          (selectAssignees (fun _ => 0) .round_robin ["x", "b"]
            ⟨["a", "b"], ⟨["a", "b"], .random, none⟩⟩ 2).1 = .ok []) ∧
        ((["x", "b"] : List String).filter
            (fun u => decide (u ∈ (⟨["a", "b"], ⟨["a", "b"], .random, none⟩⟩ :
              UserConfig).usernames)) ≠ [] →
          (selectAssignees (fun _ => 0) .round_robin ["x", "b"]
            ⟨["a", "b"], ⟨["a", "b"], .random, none⟩⟩ 2).1 =
            (select_from_available (fun _ => 0)
              (set_collection (set_policy (⟨["a", "b"], ⟨["a", "b"], .random, none⟩⟩ :
                UserConfig).selector .round_robin)
                (⟨["a", "b"], ⟨["a", "b"], .random, none⟩⟩ : UserConfig).usernames)
              ((["x", "b"] : List String).filter
                (fun u => decide (u ∈ (⟨["a", "b"], ⟨["a", "b"], .random, none⟩⟩ :
                  UserConfig).usernames)))
              (min 2 (((["x", "b"] : List String).filter
                (fun u => decide (u ∈ (⟨["a", "b"], ⟨["a", "b"], .random, none⟩⟩ :
                  UserConfig).usernames))).length : Int))).1))) :=
  selectAssignees_recovery (fun _ => 0) .round_robin ["x", "b"]
    ⟨["a", "b"], ⟨["a", "b"], .random, none⟩⟩ 2

end AssignBot
